import Mathlib

set_option maxRecDepth 100000

/-!
Shallow embedding of the grid simulation engine of `src/game.js`
("Salaryman"): the data model, player movement with block pushing and
key collection (`tryMovePlayer`), enemy patrol (`moveEnemies`), and the
outcome signals, together with proofs of the specification claims about
them.  Coordinates are `Int` (JS numbers under unit-step arithmetic);
the outcome signal of one call is modelled as the list of outcome
categories emitted during the call, with the spec's `None` outcome
rendered as the empty list.
-/

/-- Outcome signal categories emitted by engine operations, one per
emission site in `game.js` (`showMessage` with `KEY_MESSAGES`,
`ALL_KEYS_MESSAGES`, `DOOR_LOCKED_MESSAGES`, and the `handleDeath` and
`handleWin` calls). -/
inductive Outcome where
  | keyCollected
  | allKeysCollected
  | doorLocked
  | death
  | win
deriving DecidableEq

/-- An (x, y) cell position; also the whole state of one pushable block. -/
structure Pos where
  x : Int
  y : Int
deriving DecidableEq

/-- A key: position plus `collected` flag (entries of `keys` in `game.js`). -/
structure KeyEnt where
  x : Int
  y : Int
  collected : Bool
deriving DecidableEq

/-- The exit door: position plus open flag (`door` in `game.js`; the JS
field `open` is a Lean keyword, rendered `isOpen`). -/
structure Door where
  x : Int
  y : Int
  isOpen : Bool
deriving DecidableEq

/-- An enemy: position plus horizontal patrol direction `dir` (+1 or -1). -/
structure Enemy where
  x : Int
  y : Int
  dir : Int
deriving DecidableEq

/-- The aggregate mutable state of the engine: the module-level variables
`player`, `blocks`, `keys`, `door`, `enemies`, `totalKeys` and
`keysCollected` of `game.js`.  The tile grid itself is immutable after
load and is kept as the global `rawMap` below. -/
structure GameState where
  player : Pos
  blocks : List Pos
  keys : List KeyEnt
  door : Door
  enemies : List Enemy
  totalKeys : Nat
  keysCollected : Nat
deriving DecidableEq

def GRID_WIDTH : Int := 15

def GRID_HEIGHT : Int := 11

/-- The fixed level layout of `game.js` (`rawMap`). -/
def rawMap : List String :=
  [ "###############"
  , "#P   B    K  D#"
  , "#   ###   ### #"
  , "#   # E       #"
  , "#   #   B     #"
  , "#   ###   ### #"
  , "#   K         #"
  , "#       B     #"
  , "#   ###   ### #"
  , "#          K  #"
  , "###############" ]

/-- Character of the level map at cell (x, y); `none` when the index
falls outside the literal map array. -/
def mapChar (x y : Int) : Option Char :=
  if x < 0 ∨ y < 0 then none
  else (rawMap.get? y.toNat).bind (fun row => row.data.get? x.toNat)

/-- Checked lookup of `tiles[y][x]`: `some true` is `TILE.WALL`,
`some false` is `TILE.FLOOR`, `none` is an out-of-bounds access
(`resetLevel` writes `WALL` exactly for the `#` map characters). -/
def tileAt (x y : Int) : Option Bool :=
  (mapChar x y).map (fun ch => ch == '#')

/-- `isInsideGrid` of `game.js`. -/
def isInsideGrid (x y : Int) : Bool :=
  decide (0 ≤ x) && decide (x < GRID_WIDTH) && decide (0 ≤ y) && decide (y < GRID_HEIGHT)

/-- `isWall` of `game.js` (`tiles[y][x] === TILE.WALL`).  Every call site
in the engine guards it with an inside-grid check, so the `getD false`
default is never consulted; the checked variants below certify this. -/
def isWall (x y : Int) : Bool := (tileAt x y).getD false

/-- `findBlockAt` of `game.js`: first block of the list at (x, y). -/
def findBlockAt (blocks : List Pos) (x y : Int) : Option Pos :=
  blocks.find? (fun b => b.x == x && b.y == y)

/-- `findKeyAt` of `game.js`: first uncollected key at (x, y). -/
def findKeyAt (keys : List KeyEnt) (x y : Int) : Option KeyEnt :=
  keys.find? (fun k => k.x == x && k.y == y && !k.collected)

/-- `isEnemyAt` of `game.js`. -/
def isEnemyAt (enemies : List Enemy) (x y : Int) : Bool :=
  enemies.any (fun e => e.x == x && e.y == y)

/-- `isBlockingTile` of `game.js`: outside grid, wall, or occupied by a
block (door and enemy occupancy are not checked). -/
def isBlockingTile (blocks : List Pos) (x y : Int) : Bool :=
  if !isInsideGrid x y then true
  else if isWall x y then true
  else if (findBlockAt blocks x y).isSome then true
  else false

/-- The in-place mutation `block.x = behindX; block.y = behindY` applied
to the block `blocks.find` returned: the first block of the list at
(tx, ty) is relocated to (nx, ny), all others are untouched. -/
def pushBlock : List Pos → Int → Int → Int → Int → List Pos
  | [], _, _, _, _ => []
  | b :: rest, tx, ty, nx, ny =>
    if b.x == tx && b.y == ty then { x := nx, y := ny } :: rest
    else b :: pushBlock rest tx ty nx ny

/-- The in-place mutation `key.collected = true` applied to the key
`findKeyAt` returned: the first uncollected key of the list at (x, y)
gets its flag set, all others are untouched. -/
def collectKeyList : List KeyEnt → Int → Int → List KeyEnt
  | [], _, _ => []
  | k :: rest, x, y =>
    if k.x == x && k.y == y && !k.collected then { k with collected := true } :: rest
    else k :: collectKeyList rest x y

/-- Lines 240-252 of `game.js`: the after-move key pickup at the player's
current cell, the `keysCollected` increment, and the door-opening check,
with the outcomes they emit (`if (key && !key.collected)` — `findKeyAt`
already filters collected keys, so only presence is tested). -/
def collectKey (s : GameState) : GameState × List Outcome :=
  if (findKeyAt s.keys s.player.x s.player.y).isSome then
    let keys2 := collectKeyList s.keys s.player.x s.player.y
    let kc := s.keysCollected + 1
    if kc == s.totalKeys then
      ({ s with keys := keys2, keysCollected := kc
              , door := { s.door with isOpen := true } },
       [Outcome.keyCollected, Outcome.allKeysCollected])
    else
      ({ s with keys := keys2, keysCollected := kc }, [Outcome.keyCollected])
  else (s, [])

/-- `tryMovePlayer` of `game.js`: target computation, inside-grid guard,
enemy check, door check, block push, free move into non-wall, and the
trailing key pickup (which in the source also runs after a wall-blocked
attempt). -/
def tryMovePlayer (s : GameState) (dx dy : Int) : GameState × List Outcome :=
  let targetX := s.player.x + dx
  let targetY := s.player.y + dy
  if !isInsideGrid targetX targetY then (s, [])
  else if isEnemyAt s.enemies targetX targetY then (s, [Outcome.death])
  else if targetX == s.door.x && targetY == s.door.y then
    (if s.door.isOpen then (s, [Outcome.win]) else (s, [Outcome.doorLocked]))
  else if (findBlockAt s.blocks targetX targetY).isSome then
    let behindX := targetX + dx
    let behindY := targetY + dy
    if !isInsideGrid behindX behindY then (s, [])
    else if isBlockingTile s.blocks behindX behindY then (s, [])
    else collectKey { s with blocks := pushBlock s.blocks targetX targetY behindX behindY
                           , player := { x := targetX, y := targetY } }
  else if !isWall targetX targetY then
    collectKey { s with player := { x := targetX, y := targetY } }
  else
    collectKey s

/-- Body of the `enemies.forEach` loop in `moveEnemies`: step one enemy,
reversing `dir` on obstruction (outside grid, wall, or block), else
advancing `x`.  Only walls and blocks obstruct; other enemies and the
player do not. -/
def stepEnemy (blocks : List Pos) (e : Enemy) : Enemy :=
  let nextX := e.x + e.dir
  let nextY := e.y
  if !isInsideGrid nextX nextY || isWall nextX nextY || (findBlockAt blocks nextX nextY).isSome then
    { e with dir := -e.dir }
  else
    { e with x := nextX }

/-- The `enemies.forEach` loop of `moveEnemies`: each enemy is resolved
in declaration order; after resolving, a collision of its final position
with the player emits a death outcome.  `handleDeath` only emits (it
schedules a deferred reset), so iteration continues. -/
def runEnemies (blocks : List Pos) (player : Pos) : List Enemy → List Enemy × List Outcome
  | [] => ([], [])
  | e :: rest =>
    let e2 := stepEnemy blocks e
    let r := runEnemies blocks player rest
    (e2 :: r.1, (if e2.x == player.x && e2.y == player.y then [Outcome.death] else []) ++ r.2)

/-- `moveEnemies` of `game.js`. -/
def moveEnemies (s : GameState) : GameState × List Outcome :=
  let r := runEnemies s.blocks s.player s.enemies
  ({ s with enemies := r.1 }, r.2)

/-- The scan order of the nested loops in `resetLevel`: `y` outer from 0
to `GRID_HEIGHT`, `x` inner from 0 to `GRID_WIDTH`. -/
def scanOrder : List (Int × Int) :=
  (List.range 11).flatMap (fun y => (List.range 15).map (fun x => ((x : Int), (y : Int))))

/-- `resetLevel` of `game.js`: the fresh `GameState` built by scanning
`rawMap` in loop order, with `keysCollected = 0`, `totalKeys` the number
of `K` markers, the door closed and every enemy moving right (`dir = 1`).
The map has exactly one `P` and one `D`, so the `headD` defaults are
never consulted. -/
def resetLevel : GameState :=
  { player :=
      (scanOrder.filterMap (fun c =>
        if mapChar c.1 c.2 == some 'P' then some ({ x := c.1, y := c.2 } : Pos) else none)).headD
        { x := 0, y := 0 }
  , blocks := scanOrder.filterMap (fun c =>
      if mapChar c.1 c.2 == some 'B' then some ({ x := c.1, y := c.2 } : Pos) else none)
  , keys := scanOrder.filterMap (fun c =>
      if mapChar c.1 c.2 == some 'K' then
        some ({ x := c.1, y := c.2, collected := false } : KeyEnt) else none)
  , door :=
      (scanOrder.filterMap (fun c =>
        if mapChar c.1 c.2 == some 'D' then
          some ({ x := c.1, y := c.2, isOpen := false } : Door) else none)).headD
        { x := 0, y := 0, isOpen := false }
  , enemies := scanOrder.filterMap (fun c =>
      if mapChar c.1 c.2 == some 'E' then
        some ({ x := c.1, y := c.2, dir := 1 } : Enemy) else none)
  , totalKeys := (scanOrder.filterMap (fun c =>
      if mapChar c.1 c.2 == some 'K' then some c else none)).length
  , keysCollected := 0 }

/-- The two external stimuli driving the engine: a directional move
request and the enemy-advancement tick. -/
inductive Dir where
  | up
  | down
  | left
  | right
deriving DecidableEq

def Dir.dx : Dir → Int
  | .up => 0
  | .down => 0
  | .left => -1
  | .right => 1

def Dir.dy : Dir → Int
  | .up => -1
  | .down => 1
  | .left => 0
  | .right => 0

/-- One external stimulus: a `tryMovePlayer` call with a unit direction,
or one `moveEnemies` tick. -/
inductive Act where
  | move (d : Dir)
  | tick
deriving DecidableEq

/-- Apply one stimulus to the state, returning the next state and the
outcomes the call emitted. -/
def applyAct (s : GameState) : Act → GameState × List Outcome
  | .move d => tryMovePlayer s d.dx d.dy
  | .tick => moveEnemies s

/-- States reachable from level load by any sequence of `tryMovePlayer`
(unit directions) and `moveEnemies` calls. -/
inductive Reachable : GameState → Prop where
  | load : Reachable resetLevel
  | step (a : Act) {s : GameState} : Reachable s → Reachable (applyAct s a).1

/-- Run a list of stimuli from a state, keeping only the state. -/
def runActs (s : GameState) (l : List Act) : GameState :=
  l.foldl (fun t a => (applyAct t a).1) s

/-- Variant of `isBlockingTile` in which the `tiles[y][x]` access is
checked: it returns `none` if an out-of-bounds access would occur. -/
def isBlockingTileChecked (blocks : List Pos) (x y : Int) : Option Bool :=
  if !isInsideGrid x y then some true
  else (tileAt x y).bind (fun w =>
    if w then some true
    else some (findBlockAt blocks x y).isSome)

/-- Variant of `tryMovePlayer` in which every `tiles[y][x]` access is
checked: the call returns `none` if any access is out of bounds. -/
def tryMovePlayerChecked (s : GameState) (dx dy : Int) : Option (GameState × List Outcome) :=
  let targetX := s.player.x + dx
  let targetY := s.player.y + dy
  if !isInsideGrid targetX targetY then some (s, [])
  else if isEnemyAt s.enemies targetX targetY then some (s, [Outcome.death])
  else if targetX == s.door.x && targetY == s.door.y then
    (if s.door.isOpen then some (s, [Outcome.win]) else some (s, [Outcome.doorLocked]))
  else if (findBlockAt s.blocks targetX targetY).isSome then
    let behindX := targetX + dx
    let behindY := targetY + dy
    if !isInsideGrid behindX behindY then some (s, [])
    else (isBlockingTileChecked s.blocks behindX behindY).bind (fun blocking =>
      if blocking then some (s, [])
      else some (collectKey { s with blocks := pushBlock s.blocks targetX targetY behindX behindY
                                   , player := { x := targetX, y := targetY } }))
  else (tileAt targetX targetY).bind (fun w =>
    if !w then some (collectKey { s with player := { x := targetX, y := targetY } })
    else some (collectKey s))

/-- Variant of `stepEnemy` with a checked `tiles[y][x]` access. -/
def stepEnemyChecked (blocks : List Pos) (e : Enemy) : Option Enemy :=
  let nextX := e.x + e.dir
  let nextY := e.y
  if !isInsideGrid nextX nextY then some { e with dir := -e.dir }
  else (tileAt nextX nextY).bind (fun w =>
    if w || (findBlockAt blocks nextX nextY).isSome then some { e with dir := -e.dir }
    else some { e with x := nextX })

/-- Variant of `runEnemies` with checked tile accesses. -/
def runEnemiesChecked (blocks : List Pos) (player : Pos) :
    List Enemy → Option (List Enemy × List Outcome)
  | [] => some ([], [])
  | e :: rest =>
    (stepEnemyChecked blocks e).bind (fun e2 =>
      (runEnemiesChecked blocks player rest).bind (fun r =>
        some (e2 :: r.1,
          (if e2.x == player.x && e2.y == player.y then [Outcome.death] else []) ++ r.2)))

/-- Variant of `moveEnemies` with checked tile accesses. -/
def moveEnemiesChecked (s : GameState) : Option (GameState × List Outcome) :=
  (runEnemiesChecked s.blocks s.player s.enemies).map (fun r => ({ s with enemies := r.1 }, r.2))

/-- Number of keys whose `collected` flag is set (what `updateStatus`
displays as `keysCollected` and what the spec counts). -/
def countCollected (keys : List KeyEnt) : Nat :=
  (keys.filter (fun k => k.collected)).length

/-- Generic list operation: replace the first occurrence of `old` by
`new`, leaving everything else untouched (spec-level description of what
a push does to the list of block cells). -/
def replaceFirst {α : Type} [DecidableEq α] : List α → α → α → List α
  | [], _, _ => []
  | a :: rest, old, new =>
    if a = old then new :: rest else a :: replaceFirst rest old new

/-- Inductive invariant of the engine, proved to hold in every reachable
state: blocks sit inside the grid on non-wall cells and are pairwise
distinct; enemies sit inside the grid on non-wall cells of the patrol
row `y = 3`; the door is the fixed cell (13, 1); the keys occupy, in
declaration order, the fixed cells (10, 1), (4, 6) and (11, 9);
`keysCollected` counts the collected keys of `totalKeys = 3`; the door
is open exactly when all 3 keys are collected; and the player stands
inside the grid on a non-wall cell holding no uncollected key. -/
structure EngineInv (s : GameState) : Prop where
  blocks_floor : ∀ b ∈ s.blocks, isInsideGrid b.x b.y = true ∧ isWall b.x b.y = false
  blocks_nodup : s.blocks.Nodup
  enemies_floor : ∀ e ∈ s.enemies,
    isInsideGrid e.x e.y = true ∧ isWall e.x e.y = false ∧ e.y = 3
  door_x : s.door.x = 13
  door_y : s.door.y = 1
  keys_pos : s.keys.map (fun k => (k.x, k.y)) = [(10, 1), (4, 6), (11, 9)]
  count_eq : s.keysCollected = countCollected s.keys
  total_eq : s.totalKeys = 3
  door_iff : s.door.isOpen = true ↔ s.keysCollected = 3
  player_inside : isInsideGrid s.player.x s.player.y = true
  player_floor : isWall s.player.x s.player.y = false
  player_no_key : findKeyAt s.keys s.player.x s.player.y = none

/-- Eleven moves right from level load: the player walks to the block at
(5, 1) and pushes it along the top corridor onto the door cell (13, 1),
collecting the key at (10, 1) on the way. -/
def pushOntoDoorTrace : GameState :=
  runActs resetLevel (List.replicate 11 (Act.move Dir.right))

/-- Move sequence walking the player around the lower-left corridor and
pushing the block at (8, 4) up into the patrol row and then left onto
the enemy's cell (6, 3): the blocking check of a push ignores enemies. -/
def pushOntoEnemyActs : List Act :=
  [Act.move .down, Act.move .down, Act.move .down, Act.move .down, Act.move .down,
   Act.move .right, Act.move .right, Act.move .right, Act.move .right, Act.move .right,
   Act.move .right, Act.move .right,
   Act.move .up, Act.move .up,
   Act.move .right, Act.move .up,
   Act.move .left, Act.move .left]

/-- The state reached by `pushOntoEnemyActs`: player at (7, 3), a block
on the enemy's cell (6, 3). -/
def pushOntoEnemyTrace : GameState := runActs resetLevel pushOntoEnemyActs

/-- A state (not reachable in this level, but a well-formed `GameState`)
with an enemy standing on the open door's cell (13, 1) and the player
right next to it at (12, 1). -/
def enemyOnDoorState : GameState :=
  { resetLevel with player := { x := 12, y := 1 }
                  , enemies := [{ x := 13, y := 1, dir := 1 }]
                  , door := { x := 13, y := 1, isOpen := true } }

/-- A state (not reachable in this level, but a well-formed `GameState`)
with two enemies on the patrol row: the first steps onto the player at
(7, 3), the second sits further right at (9, 3) with floor ahead. -/
def twoEnemyState : GameState :=
  { resetLevel with player := { x := 7, y := 3 }
                  , enemies := [{ x := 6, y := 3, dir := 1 }, { x := 9, y := 3, dir := 1 }] }

/-- Move sequence walking down the left corridor and along row 6 up to
the cell (3, 6), immediately left of the key at (4, 6): the next move
right lands on an uncollected key. -/
def keyApproachActs : List Act :=
  [Act.move .down, Act.move .down, Act.move .down, Act.move .down, Act.move .down,
   Act.move .right, Act.move .right]

/-- The state reached by `keyApproachActs`: player at (3, 6), all keys
still uncollected. -/
def keyApproachTrace : GameState := runActs resetLevel keyApproachActs

/-- Move sequence walking to (5, 3), the cell immediately left of the
patrolling enemy's start cell (6, 3): the next move right steps onto the
enemy. -/
def enemyApproachActs : List Act :=
  [Act.move .down, Act.move .down, Act.move .down, Act.move .down, Act.move .down,
   Act.move .right, Act.move .right, Act.move .right, Act.move .right, Act.move .right,
   Act.move .right,
   Act.move .up, Act.move .up,
   Act.move .left, Act.move .left,
   Act.move .up]

/-- The state reached by `enemyApproachActs`: player at (5, 3), the
enemy still at (6, 3). -/
def enemyApproachTrace : GameState := runActs resetLevel enemyApproachActs

/-- Three moves right from level load: the player walks to (4, 1), the
cell immediately left of the block at (5, 1); the next move right is an
unobstructed push. -/
def threeRightActs : List Act := List.replicate 3 (Act.move Dir.right)

/-- The state reached by `threeRightActs`: player at (4, 1), blocks
untouched. -/
def threeRightTrace : GameState := runActs resetLevel threeRightActs

/-- Every row of the level map is a string of `GRID_WIDTH` characters
and there are `GRID_HEIGHT` rows. -/
theorem rawMap_shape : rawMap.length = 11 ∧ ∀ r ∈ rawMap, r.data.length = 15 := by decide

/-- Inside the grid, the tile lookup is always defined and agrees with
the total `isWall`. -/
theorem tileAt_eq_some_isWall {x y : Int} (h : isInsideGrid x y = true) :
    tileAt x y = some (isWall x y) := by
  simp only [isInsideGrid, GRID_WIDTH, GRID_HEIGHT, Bool.and_eq_true, decide_eq_true_eq] at h
  obtain ⟨⟨⟨hx0, hx⟩, hy0⟩, hy⟩ := h
  have hyn : y.toNat < rawMap.length := by
    rw [rawMap_shape.1]; omega
  obtain ⟨row, hrow⟩ : ∃ row, rawMap.get? y.toNat = some row :=
    ⟨_, List.get?_eq_get hyn⟩
  have hxr : x.toNat < row.data.length := by
    rw [rawMap_shape.2 row (List.get?_mem hrow)]; omega
  have hch : row.data.get? x.toNat = some (row.data.get ⟨x.toNat, hxr⟩) :=
    List.get?_eq_get hxr
  have hmc : mapChar x y = some (row.data.get ⟨x.toNat, hxr⟩) := by
    unfold mapChar
    rw [if_neg (by omega), hrow]
    simp [hch]
  have ht : tileAt x y = some ((row.data.get ⟨x.toNat, hxr⟩) == '#') := by
    unfold tileAt
    rw [hmc]; rfl
  rw [ht, isWall, ht]
  rfl

theorem isBlockingTileChecked_eq (blocks : List Pos) (x y : Int) :
    isBlockingTileChecked blocks x y = some (isBlockingTile blocks x y) := by
  simp only [isBlockingTileChecked, isBlockingTile]
  cases hins : isInsideGrid x y
  · simp
  · rw [tileAt_eq_some_isWall hins]
    cases hw : isWall x y <;> simp

theorem stepEnemyChecked_eq (blocks : List Pos) (e : Enemy) :
    stepEnemyChecked blocks e = some (stepEnemy blocks e) := by
  simp only [stepEnemyChecked, stepEnemy]
  cases hins : isInsideGrid (e.x + e.dir) e.y
  · simp
  · rw [tileAt_eq_some_isWall hins]
    cases hw : isWall (e.x + e.dir) e.y <;> (simp; try (split <;> rfl))

theorem runEnemiesChecked_eq (blocks : List Pos) (player : Pos) (es : List Enemy) :
    runEnemiesChecked blocks player es = some (runEnemies blocks player es) := by
  induction es with
  | nil => rfl
  | cons e rest ih =>
    simp [runEnemiesChecked, runEnemies, stepEnemyChecked_eq, ih]

theorem moveEnemiesChecked_eq (s : GameState) :
    moveEnemiesChecked s = some (moveEnemies s) := by
  simp [moveEnemiesChecked, moveEnemies, runEnemiesChecked_eq]

theorem tryMovePlayerChecked_eq (s : GameState) (dx dy : Int) :
    tryMovePlayerChecked s dx dy = some (tryMovePlayer s dx dy) := by
  simp only [tryMovePlayerChecked, tryMovePlayer]
  cases hins : isInsideGrid (s.player.x + dx) (s.player.y + dy)
  · simp
  · rw [tileAt_eq_some_isWall hins]
    simp only [isBlockingTileChecked_eq, Option.some_bind, Bool.not_true, Bool.false_eq_true,
      if_false]
    split_ifs <;> rfl

theorem findBlockAt_eq_some {blocks : List Pos} {x y : Int} {b : Pos}
    (h : findBlockAt blocks x y = some b) : b ∈ blocks ∧ b.x = x ∧ b.y = y := by
  have hmem := List.mem_of_find?_eq_some h
  have hp := List.find?_some h
  simp only [Bool.and_eq_true, beq_iff_eq] at hp
  exact ⟨hmem, hp.1, hp.2⟩

theorem findBlockAt_eq_none {blocks : List Pos} {x y : Int} :
    findBlockAt blocks x y = none ↔ ∀ b ∈ blocks, ¬(b.x = x ∧ b.y = y) := by
  simp [findBlockAt, List.find?_eq_none, not_and]

theorem findKeyAt_eq_some {keys : List KeyEnt} {x y : Int} {k : KeyEnt}
    (h : findKeyAt keys x y = some k) :
    k ∈ keys ∧ k.x = x ∧ k.y = y ∧ k.collected = false := by
  have hmem := List.mem_of_find?_eq_some h
  have hp := List.find?_some h
  simp only [Bool.and_eq_true, beq_iff_eq, Bool.not_eq_true'] at hp
  exact ⟨hmem, hp.1.1, hp.1.2, hp.2⟩

theorem findKeyAt_eq_none {keys : List KeyEnt} {x y : Int} :
    findKeyAt keys x y = none ↔ ∀ k ∈ keys, k.x = x → k.y = y → k.collected = true := by
  simp [findKeyAt, List.find?_eq_none]

theorem isBlockingTile_eq_false {blocks : List Pos} {x y : Int} :
    isBlockingTile blocks x y = false ↔
      isInsideGrid x y = true ∧ isWall x y = false ∧ findBlockAt blocks x y = none := by
  unfold isBlockingTile
  cases h1 : isInsideGrid x y <;> cases h2 : isWall x y <;>
    cases h3 : findBlockAt blocks x y <;> simp

theorem pushBlock_mem {blocks : List Pos} {tx ty nx ny : Int} {c : Pos}
    (h : c ∈ pushBlock blocks tx ty nx ny) : c ∈ blocks ∨ c = { x := nx, y := ny } := by
  induction blocks with
  | nil => simp [pushBlock] at h
  | cons b rest ih =>
    simp only [pushBlock] at h
    split at h
    · rcases List.mem_cons.1 h with h1 | h1
      · right; exact h1
      · left; exact List.mem_cons_of_mem _ h1
    · rcases List.mem_cons.1 h with h1 | h1
      · left; rw [h1]; exact List.mem_cons_self _ _
      · rcases ih h1 with h2 | h2
        · left; exact List.mem_cons_of_mem _ h2
        · right; exact h2

theorem pushBlock_nodup {blocks : List Pos} {tx ty nx ny : Int}
    (hnd : blocks.Nodup) (hnone : findBlockAt blocks nx ny = none) :
    (pushBlock blocks tx ty nx ny).Nodup := by
  induction blocks with
  | nil => simp [pushBlock]
  | cons b rest ih =>
    rw [List.nodup_cons] at hnd
    have hrest : findBlockAt rest nx ny = none := by
      rw [findBlockAt_eq_none]
      exact fun c hc => findBlockAt_eq_none.1 hnone c (List.mem_cons_of_mem _ hc)
    simp only [pushBlock]
    split
    · rw [List.nodup_cons]
      refine ⟨fun hmem => ?_, hnd.2⟩
      exact findBlockAt_eq_none.1 hnone _ (List.mem_cons_of_mem _ hmem) ⟨rfl, rfl⟩
    · rw [List.nodup_cons]
      refine ⟨fun hmem => ?_, ih hnd.2 hrest⟩
      rcases pushBlock_mem hmem with h1 | h1
      · exact hnd.1 h1
      · exact findBlockAt_eq_none.1 hnone b (List.mem_cons_self _ _) (by rw [h1]; exact ⟨rfl, rfl⟩)

theorem pushBlock_map_pos {blocks : List Pos} {tx ty nx ny : Int}
    (hsome : (findBlockAt blocks tx ty).isSome = true) :
    pushBlock blocks tx ty nx ny =
      replaceFirst blocks { x := tx, y := ty } { x := nx, y := ny } := by
  induction blocks with
  | nil => simp [findBlockAt] at hsome
  | cons b rest ih =>
    simp only [pushBlock, replaceFirst]
    by_cases hb : b.x = tx ∧ b.y = ty
    · have hbeq : b = ({ x := tx, y := ty } : Pos) := by
        cases b; simp at hb ⊢; exact hb
      rw [if_pos (by simp [hb.1, hb.2]), if_pos hbeq]
    · have hbeq : ¬ b = ({ x := tx, y := ty } : Pos) := by
        intro hcon; rw [hcon] at hb; exact hb ⟨rfl, rfl⟩
      rw [if_neg (by simpa using hb), if_neg hbeq]
      have hrest : (findBlockAt rest tx ty).isSome = true := by
        have : findBlockAt (b :: rest) tx ty = findBlockAt rest tx ty := by
          simp [findBlockAt, List.find?_cons, hb]
        rwa [this] at hsome
      rw [ih hrest]

theorem collectKeyList_map_pos (keys : List KeyEnt) (x y : Int) :
    (collectKeyList keys x y).map (fun k => (k.x, k.y)) =
      keys.map (fun k => (k.x, k.y)) := by
  induction keys with
  | nil => rfl
  | cons k rest ih =>
    simp only [collectKeyList]
    split <;> simp [ih]

theorem collectKeyList_count {keys : List KeyEnt} {x y : Int} {k : KeyEnt}
    (h : findKeyAt keys x y = some k) :
    countCollected (collectKeyList keys x y) = countCollected keys + 1 := by
  induction keys with
  | nil => simp [findKeyAt] at h
  | cons a rest ih =>
    by_cases ha : (a.x == x && a.y == y && !a.collected) = true
    · simp only [collectKeyList, if_pos ha]
      simp only [Bool.and_eq_true, Bool.not_eq_true'] at ha
      simp [countCollected, ha.2]
    · have hrest : findKeyAt rest x y = some k := by
        have : findKeyAt (a :: rest) x y = findKeyAt rest x y := by
          simp [findKeyAt, List.find?_cons, ha]
        rwa [this] at h
      simp only [collectKeyList, if_neg ha]
      cases hac : a.collected <;> simp [countCollected, hac, ih hrest] <;>
        simpa [countCollected] using ih hrest

theorem collectKeyList_of_no_match {keys : List KeyEnt} {x y : Int}
    (h : ∀ k ∈ keys, ¬(k.x = x ∧ k.y = y)) : collectKeyList keys x y = keys := by
  induction keys with
  | nil => rfl
  | cons k rest ih =>
    have hk := h k (List.mem_cons_self _ _)
    simp only [collectKeyList]
    rw [if_neg (by simp; intro hx hy; exact (hk ⟨hx, hy⟩).elim)]
    rw [ih fun c hc => h c (List.mem_cons_of_mem _ hc)]

theorem findKeyAt_collectKeyList {keys : List KeyEnt} {x y : Int}
    (hnd : (keys.map (fun k => (k.x, k.y))).Nodup) :
    findKeyAt (collectKeyList keys x y) x y = none := by
  induction keys with
  | nil => rfl
  | cons k rest ih =>
    rw [List.map_cons, List.nodup_cons] at hnd
    by_cases hk : (k.x == x && k.y == y && !k.collected) = true
    · simp only [collectKeyList, if_pos hk]
      simp only [Bool.and_eq_true, beq_iff_eq, Bool.not_eq_true'] at hk
      rw [findKeyAt_eq_none]
      intro c hc hcx hcy
      rcases List.mem_cons.1 hc with h1 | h1
      · rw [h1]
      · exfalso
        apply hnd.1
        rw [hk.1.1, hk.1.2, ← hcx, ← hcy]
        exact List.mem_map.2 ⟨c, h1, rfl⟩
    · simp only [collectKeyList, if_neg hk]
      rw [findKeyAt_eq_none]
      intro c hc hcx hcy
      rcases List.mem_cons.1 hc with h1 | h1
      · subst h1
        simp only [Bool.and_eq_true, beq_iff_eq, Bool.not_eq_true'] at hk
        by_contra hcol
        exact hk ⟨⟨hcx, hcy⟩, by revert hcol; cases c.collected <;> simp⟩
      · exact findKeyAt_eq_none.1 (ih hnd.2) c h1 hcx hcy

theorem countCollected_lt_of_uncollected {keys : List KeyEnt} {k : KeyEnt}
    (hk : k ∈ keys) (hc : k.collected = false) : countCollected keys < keys.length := by
  unfold countCollected
  refine List.length_filter_lt_length_iff_exists.2 ⟨k, hk, ?_⟩
  simp [hc]

theorem collectKey_of_none {s : GameState}
    (h : findKeyAt s.keys s.player.x s.player.y = none) : collectKey s = (s, []) := by
  unfold collectKey
  rw [h]
  rfl

theorem collectKey_frame (s : GameState) :
    (collectKey s).1.player = s.player ∧ (collectKey s).1.blocks = s.blocks ∧
    (collectKey s).1.enemies = s.enemies ∧ (collectKey s).1.door.x = s.door.x ∧
    (collectKey s).1.door.y = s.door.y ∧ (collectKey s).1.totalKeys = s.totalKeys := by
  simp only [collectKey]
  split_ifs <;> simp

/-- The key-pickup step establishes the engine invariant, provided all of
it except the no-key-under-player condition held before. -/
theorem collectKey_inv {s : GameState}
    (hb : ∀ b ∈ s.blocks, isInsideGrid b.x b.y = true ∧ isWall b.x b.y = false)
    (hbn : s.blocks.Nodup)
    (he : ∀ e ∈ s.enemies, isInsideGrid e.x e.y = true ∧ isWall e.x e.y = false ∧ e.y = 3)
    (hdx : s.door.x = 13) (hdy : s.door.y = 1)
    (hkp : s.keys.map (fun k => (k.x, k.y)) = [(10, 1), (4, 6), (11, 9)])
    (hc : s.keysCollected = countCollected s.keys)
    (ht : s.totalKeys = 3)
    (hdi : s.door.isOpen = true ↔ s.keysCollected = 3)
    (hpi : isInsideGrid s.player.x s.player.y = true)
    (hpw : isWall s.player.x s.player.y = false) :
    EngineInv (collectKey s).1 := by
  cases h : findKeyAt s.keys s.player.x s.player.y with
  | none =>
    rw [collectKey_of_none h]
    exact ⟨hb, hbn, he, hdx, hdy, hkp, hc, ht, hdi, hpi, hpw, h⟩
  | some k =>
    obtain ⟨hkmem, hkx, hky, hkcol⟩ := findKeyAt_eq_some h
    have hklen : s.keys.length = 3 := by
      have := congrArg List.length hkp
      simpa using this
    have hcountlt : countCollected s.keys < 3 := by
      have := countCollected_lt_of_uncollected hkmem hkcol
      omega
    have hopen : s.door.isOpen = false := by
      rcases Bool.eq_false_or_eq_true s.door.isOpen with h1 | h1
      · exact absurd (hdi.1 h1) (by omega)
      · exact h1
    have hndpos : (s.keys.map (fun k => (k.x, k.y))).Nodup := by rw [hkp]; decide
    have hnone2 := findKeyAt_collectKeyList (x := s.player.x) (y := s.player.y) hndpos
    have hcount2 := collectKeyList_count h
    have hmap2 := collectKeyList_map_pos s.keys s.player.x s.player.y
    unfold collectKey
    rw [h]
    simp only [Option.isSome_some, if_true, ht]
    by_cases h3 : s.keysCollected + 1 = 3
    · rw [if_pos (by simpa using h3)]
      exact ⟨hb, hbn, he, hdx, hdy, hmap2.trans hkp, by simp [hcount2, hc], rfl,
             by simp [h3], hpi, hpw, hnone2⟩
    · rw [if_neg (by simpa using h3)]
      exact ⟨hb, hbn, he, hdx, hdy, hmap2.trans hkp, by simp [hcount2, hc], rfl,
             by simp [hopen, h3], hpi, hpw, hnone2⟩

/-- `tryMovePlayer` preserves the engine invariant. -/
theorem inv_tryMove {s : GameState} (hInv : EngineInv s) (dx dy : Int) :
    EngineInv (tryMovePlayer s dx dy).1 := by
  simp only [tryMovePlayer]
  cases hins : isInsideGrid (s.player.x + dx) (s.player.y + dy)
  · simpa using hInv
  · simp only [Bool.not_true, Bool.false_eq_true, if_false]
    cases hen : isEnemyAt s.enemies (s.player.x + dx) (s.player.y + dy)
    · simp only [Bool.false_eq_true, if_false]
      by_cases hdoor :
          (s.player.x + dx == s.door.x && s.player.y + dy == s.door.y) = true
      · rw [if_pos hdoor]
        cases s.door.isOpen <;> simpa using hInv
      · rw [if_neg hdoor]
        cases hblk : (findBlockAt s.blocks (s.player.x + dx) (s.player.y + dy)).isSome
        · simp only [Bool.false_eq_true, if_false]
          cases hw : isWall (s.player.x + dx) (s.player.y + dy)
          · simp only [Bool.not_false, if_true]
            exact collectKey_inv hInv.blocks_floor hInv.blocks_nodup hInv.enemies_floor
              hInv.door_x hInv.door_y hInv.keys_pos hInv.count_eq hInv.total_eq
              hInv.door_iff hins hw
          · simp only [Bool.not_true, Bool.false_eq_true, if_false]
            rw [collectKey_of_none hInv.player_no_key]
            exact hInv
        · simp only [if_true]
          obtain ⟨b, hb⟩ := Option.isSome_iff_exists.1 hblk
          obtain ⟨hbmem, hbx, hby⟩ := findBlockAt_eq_some hb
          cases hbin : isInsideGrid (s.player.x + dx + dx) (s.player.y + dy + dy)
          · simpa using hInv
          · simp only [Bool.not_true, Bool.false_eq_true, if_false]
            cases hbt : isBlockingTile s.blocks (s.player.x + dx + dx) (s.player.y + dy + dy)
            · simp only [Bool.false_eq_true, if_false]
              obtain ⟨hfree1, hfree2, hfree3⟩ := isBlockingTile_eq_false.1 hbt
              refine collectKey_inv ?_ ?_ hInv.enemies_floor hInv.door_x hInv.door_y
                hInv.keys_pos hInv.count_eq hInv.total_eq hInv.door_iff hins ?_
              · intro c hc
                rcases pushBlock_mem hc with h1 | h1
                · exact hInv.blocks_floor c h1
                · rw [h1]
                  exact ⟨hfree1, hfree2⟩
              · exact pushBlock_nodup hInv.blocks_nodup hfree3
              · have := (hInv.blocks_floor b hbmem).2
                rwa [hbx, hby] at this
            · simpa using hInv
    · simpa using hInv

theorem runEnemies_fst (blocks : List Pos) (player : Pos) (es : List Enemy) :
    (runEnemies blocks player es).1 = es.map (stepEnemy blocks) := by
  induction es with
  | nil => rfl
  | cons e rest ih => simp [runEnemies, ih]

theorem stepEnemy_floor {blocks : List Pos} {e : Enemy}
    (h : isInsideGrid e.x e.y = true ∧ isWall e.x e.y = false ∧ e.y = 3) :
    isInsideGrid (stepEnemy blocks e).x (stepEnemy blocks e).y = true ∧
      isWall (stepEnemy blocks e).x (stepEnemy blocks e).y = false ∧
      (stepEnemy blocks e).y = 3 := by
  simp only [stepEnemy]
  cases hc : (!isInsideGrid (e.x + e.dir) e.y || isWall (e.x + e.dir) e.y ||
      (findBlockAt blocks (e.x + e.dir) e.y).isSome)
  · simp only [Bool.or_eq_false_iff, Bool.not_eq_true'] at hc
    simp only [Bool.false_eq_true, if_false]
    exact ⟨by simpa using hc.1.1, hc.1.2, h.2.2⟩
  · simp only [if_true]
    exact h

/-- `moveEnemies` preserves the engine invariant. -/
theorem inv_moveEnemies {s : GameState} (hInv : EngineInv s) :
    EngineInv (moveEnemies s).1 := by
  refine ⟨hInv.blocks_floor, hInv.blocks_nodup, ?_, hInv.door_x, hInv.door_y,
    hInv.keys_pos, hInv.count_eq, hInv.total_eq, hInv.door_iff,
    hInv.player_inside, hInv.player_floor, hInv.player_no_key⟩
  intro e2 he2
  simp only [moveEnemies, runEnemies_fst] at he2
  obtain ⟨e, hemem, rfl⟩ := List.mem_map.1 he2
  exact stepEnemy_floor (hInv.enemies_floor e hemem)

/-- The initial state satisfies the engine invariant. -/
theorem inv_resetLevel : EngineInv resetLevel := by
  constructor <;> decide

/-- Every reachable state satisfies the engine invariant. -/
theorem inv_reachable {s : GameState} (h : Reachable s) : EngineInv s := by
  induction h with
  | load => exact inv_resetLevel
  | step a _ ih =>
    cases a with
    | move d => exact inv_tryMove ih d.dx d.dy
    | tick => exact inv_moveEnemies ih

theorem reachable_runActs {s : GameState} (h : Reachable s) (l : List Act) :
    Reachable (runActs s l) := by
  induction l generalizing s with
  | nil => exact h
  | cons a rest ih => exact ih (Reachable.step a h)

theorem isEnemyAt_iff {enemies : List Enemy} {x y : Int} :
    isEnemyAt enemies x y = true ↔ ∃ e ∈ enemies, e.x = x ∧ e.y = y := by
  simp [isEnemyAt, List.any_eq_true]

theorem tileAt_of_not_inside {x y : Int} (h : isInsideGrid x y = false) :
    tileAt x y = none := by
  simp only [isInsideGrid, GRID_WIDTH, GRID_HEIGHT, Bool.and_eq_false_iff,
    decide_eq_false_iff_not, not_lt, not_le] at h
  simp only [tileAt, mapChar]
  by_cases hneg : x < 0 ∨ y < 0
  · rw [if_pos hneg]
    rfl
  · rw [if_neg hneg]
    push_neg at hneg
    have hor : 15 ≤ x ∨ 11 ≤ y := by omega
    rcases hor with h1 | h1
    · cases hrow : rawMap.get? y.toNat with
      | none => rfl
      | some row =>
        have hlen : row.data.length = 15 := rawMap_shape.2 row (List.get?_mem hrow)
        have hnone : row.data.get? x.toNat = none := List.get?_eq_none.2 (by omega)
        show (row.data.get? x.toNat).map _ = none
        rw [hnone]
        rfl
    · have hnone : rawMap.get? y.toNat = none :=
        List.get?_eq_none.2 (by rw [rawMap_shape.1]; omega)
      rw [hnone]
      rfl

theorem isWall_inside {x y : Int} (h : isWall x y = true) : isInsideGrid x y = true := by
  cases hins : isInsideGrid x y
  · rw [isWall, tileAt_of_not_inside hins] at h
    cases h
  · rfl

theorem runEnemies_death (blocks : List Pos) (player : Pos) (es : List Enemy) :
    Outcome.death ∈ (runEnemies blocks player es).2 ↔
      ∃ e ∈ es, (stepEnemy blocks e).x = player.x ∧ (stepEnemy blocks e).y = player.y := by
  induction es with
  | nil => simp [runEnemies]
  | cons e rest ih =>
    by_cases hc : ((stepEnemy blocks e).x == player.x && (stepEnemy blocks e).y == player.y)
        = true
    · simp only [runEnemies, if_pos hc, List.cons_append, List.nil_append]
      simp only [Bool.and_eq_true, beq_iff_eq] at hc
      simp only [List.mem_cons, true_or, true_iff]
      exact ⟨e, Or.inl rfl, hc.1, hc.2⟩
    · simp only [runEnemies, if_neg hc, List.nil_append]
      rw [ih]
      simp only [Bool.and_eq_true, beq_iff_eq, not_and] at hc
      constructor
      · rintro ⟨e2, he2, hx⟩
        exact ⟨e2, List.mem_cons_of_mem _ he2, hx⟩
      · rintro ⟨e2, he2, hx⟩
        rcases List.mem_cons.1 he2 with h1 | h1
        · subst h1
          exact absurd hx.2 (hc hx.1)
        · exact ⟨e2, h1, hx⟩

theorem collectKey_door_monotone (s : GameState) (h : s.door.isOpen = true) :
    (collectKey s).1.door.isOpen = true := by
  simp only [collectKey]
  split_ifs <;> simp [h]

theorem tryMove_door_monotone (s : GameState) (dx dy : Int) (h : s.door.isOpen = true) :
    (tryMovePlayer s dx dy).1.door.isOpen = true := by
  simp only [tryMovePlayer]
  split_ifs <;> first | exact h | exact collectKey_door_monotone _ h

/-- Behaviour of the key-pickup step when an uncollected key sits at the
player's cell. -/
theorem collectKey_spec {s : GameState} {k : KeyEnt}
    (h : findKeyAt s.keys s.player.x s.player.y = some k) :
    (collectKey s).1.keysCollected = s.keysCollected + 1 ∧
    (collectKey s).1.keys = collectKeyList s.keys s.player.x s.player.y ∧
    (s.keysCollected + 1 = s.totalKeys →
      (collectKey s).1.door.isOpen = true ∧
      (collectKey s).2 = [Outcome.keyCollected, Outcome.allKeysCollected]) ∧
    (s.keysCollected + 1 ≠ s.totalKeys →
      (collectKey s).1.door = s.door ∧ (collectKey s).2 = [Outcome.keyCollected]) := by
  simp only [collectKey, h, Option.isSome_some, if_true]
  by_cases h3 : s.keysCollected + 1 = s.totalKeys
  · rw [if_pos (by simpa using h3)]
    exact ⟨rfl, rfl, fun _ => ⟨rfl, rfl⟩, fun hne => absurd h3 hne⟩
  · rw [if_neg (by simpa using h3)]
    exact ⟨rfl, rfl, fun heq => absurd heq h3, fun _ => ⟨rfl, rfl⟩⟩

/-- If a `tryMovePlayer` call relocates the player, the call went through
the push branch or the free-move branch: the result is the key-pickup
step applied to an intermediate state with the same keys, counters and
door, and with the player on the target cell. -/
theorem tryMove_moved {s : GameState} {dx dy : Int}
    (hmoved : (tryMovePlayer s dx dy).1.player ≠ s.player) :
    ∃ s1 : GameState, tryMovePlayer s dx dy = collectKey s1 ∧ s1.keys = s.keys ∧
      s1.keysCollected = s.keysCollected ∧ s1.totalKeys = s.totalKeys ∧
      s1.door = s.door ∧
      s1.player = { x := s.player.x + dx, y := s.player.y + dy } := by
  revert hmoved
  simp only [tryMovePlayer]
  cases hins : isInsideGrid (s.player.x + dx) (s.player.y + dy)
  · intro hmoved
    exact absurd rfl hmoved
  · simp only [Bool.not_true, Bool.false_eq_true, if_false]
    cases hen : isEnemyAt s.enemies (s.player.x + dx) (s.player.y + dy)
    · simp only [Bool.false_eq_true, if_false]
      by_cases hdoor :
          (s.player.x + dx == s.door.x && s.player.y + dy == s.door.y) = true
      · rw [if_pos hdoor]
        intro hmoved
        exact absurd (by cases s.door.isOpen <;> rfl) hmoved
      · rw [if_neg hdoor]
        cases hblk : (findBlockAt s.blocks (s.player.x + dx) (s.player.y + dy)).isSome
        · simp only [Bool.false_eq_true, if_false]
          cases hw : isWall (s.player.x + dx) (s.player.y + dy)
          · simp only [Bool.not_false, if_true]
            intro _
            exact ⟨_, rfl, rfl, rfl, rfl, rfl, rfl⟩
          · simp only [Bool.not_true, Bool.false_eq_true, if_false]
            intro hmoved
            exact absurd (collectKey_frame s).1 hmoved
        · simp only [if_true]
          cases hbin : isInsideGrid (s.player.x + dx + dx) (s.player.y + dy + dy)
          · intro hmoved
            exact absurd rfl hmoved
          · simp only [Bool.not_true, Bool.false_eq_true, if_false]
            cases hbt : isBlockingTile s.blocks (s.player.x + dx + dx) (s.player.y + dy + dy)
            · simp only [Bool.false_eq_true, if_false]
              intro _
              exact ⟨_, rfl, rfl, rfl, rfl, rfl, rfl⟩
            · intro hmoved
              exact absurd rfl hmoved
    · intro hmoved
      exact absurd rfl hmoved

/-- C1 (counterexample): the claim — in every state reachable from level
load by `tryMove` and `advanceEnemies` calls, no block occupies a wall
cell, the door's cell, or the cell of another block — is false: after
eleven `tryMove(1, 0)` calls from level load a block sits on the door's
cell (13, 1), because the blocking check of a push (`isBlockingTile`)
does not test the door. -/
theorem c1_counterexample :
    ¬ (∀ s : GameState, Reachable s → ∀ b ∈ s.blocks,
        isWall b.x b.y = false ∧ ¬(b.x = s.door.x ∧ b.y = s.door.y) ∧
        ∀ b2 ∈ s.blocks, b ≠ b2 → ¬(b.x = b2.x ∧ b.y = b2.y)) := by
  intro h
  have hr : Reachable pushOntoDoorTrace :=
    reachable_runActs Reachable.load (List.replicate 11 (Act.move Dir.right))
  have hb : ({ x := 13, y := 1 } : Pos) ∈ pushOntoDoorTrace.blocks := by decide
  exact (h pushOntoDoorTrace hr { x := 13, y := 1 } hb).2.1 (by decide)

/-- C1 (amended): in every state reachable from level load, no block
occupies a wall cell or the cell of another block.  The door clause of
the original claim is dropped: a block can be pushed onto the door's
cell. -/
theorem c1_amended {s : GameState} (h : Reachable s) :
    (∀ b ∈ s.blocks, isWall b.x b.y = false) ∧
      s.blocks.Pairwise (fun a b => ¬(a.x = b.x ∧ a.y = b.y)) := by
  have hInv := inv_reachable h
  refine ⟨fun b hb => (hInv.blocks_floor b hb).2, ?_⟩
  refine List.Pairwise.imp ?_ hInv.blocks_nodup
  intro a b hne hab
  apply hne
  obtain ⟨h1, h2⟩ := hab
  cases a
  cases b
  simp_all

/-- Witness for C1 (amended) at the loaded level itself. -/
theorem c1_amended_witness :
    (∀ b ∈ resetLevel.blocks, isWall b.x b.y = false) ∧
      resetLevel.blocks.Pairwise (fun a b => ¬(a.x = b.x ∧ a.y = b.y)) :=
  c1_amended Reachable.load

/-- C2 (counterexample): the claim — whenever some enemy's resolved
position equals the player's, Death is emitted and no later enemy is
processed on that tick — is false: `moveEnemies` iterates with
`forEach` and `handleDeath` only schedules a deferred reset, so in a
state in which the first of two enemies steps onto the player, the
second enemy still moves on the same tick. -/
theorem c2_counterexample :
    ¬ (∀ (s : GameState) (i j : Nat), i < j →
        (∃ ei, s.enemies.get? i = some ei ∧
          (stepEnemy s.blocks ei).x = s.player.x ∧ (stepEnemy s.blocks ei).y = s.player.y) →
        Outcome.death ∈ (moveEnemies s).2 ∧
        (moveEnemies s).1.enemies.get? j = s.enemies.get? j) := by
  intro h
  have hcon := (h twoEnemyState 0 1 (by decide)
    ⟨{ x := 6, y := 3, dir := 1 }, by decide, by decide, by decide⟩).2
  revert hcon
  decide

/-- C2 (amended): whenever some enemy's resolved position equals the
player's, the Death outcome is emitted, but processing does not stop:
every enemy, later ones included, is still resolved on that tick — the
final enemy list is the per-enemy resolution of the whole list (each
against the unchanged walls and blocks), a death outcome is emitted
exactly when some resolved enemy sits on the player, and nothing else in
the state changes. -/
theorem c2_amended (s : GameState) :
    (moveEnemies s).1.enemies = s.enemies.map (stepEnemy s.blocks) ∧
    (Outcome.death ∈ (moveEnemies s).2 ↔ ∃ e ∈ s.enemies,
      (stepEnemy s.blocks e).x = s.player.x ∧ (stepEnemy s.blocks e).y = s.player.y) ∧
    (moveEnemies s).1.player = s.player ∧ (moveEnemies s).1.blocks = s.blocks ∧
    (moveEnemies s).1.keys = s.keys ∧ (moveEnemies s).1.door = s.door ∧
    (moveEnemies s).1.keysCollected = s.keysCollected := by
  refine ⟨?_, ?_, rfl, rfl, rfl, rfl, rfl⟩
  · simp [moveEnemies, runEnemies_fst]
  · exact runEnemies_death s.blocks s.player s.enemies

/-- C4 (counterexample): the claim — in every reachable state every
enemy is inside the grid and on neither a wall cell nor a cell occupied
by a block — is false: a block can be pushed onto an enemy's cell, since
the blocking check of a push does not test enemies. -/
theorem c4_counterexample :
    ¬ (∀ s : GameState, Reachable s → ∀ e ∈ s.enemies,
        isInsideGrid e.x e.y = true ∧ isWall e.x e.y = false ∧
        findBlockAt s.blocks e.x e.y = none) := by
  intro h
  have hr : Reachable pushOntoEnemyTrace :=
    reachable_runActs Reachable.load pushOntoEnemyActs
  have hm : ({ x := 6, y := 3, dir := 1 } : Enemy) ∈ pushOntoEnemyTrace.enemies := by decide
  have hcon := (h pushOntoEnemyTrace hr _ hm).2.2
  revert hcon
  decide

/-- C4 (amended): in every state reachable from level load, every
enemy's position is inside the grid and is not a wall cell.  The
block clause of the original claim is dropped: a block can be pushed
onto an enemy's cell. -/
theorem c4_amended {s : GameState} (h : Reachable s) :
    ∀ e ∈ s.enemies, isInsideGrid e.x e.y = true ∧ isWall e.x e.y = false := by
  intro e he
  exact ⟨((inv_reachable h).enemies_floor e he).1, ((inv_reachable h).enemies_floor e he).2.1⟩

/-- Witness for C4 (amended) at the loaded level's single enemy (6, 3). -/
theorem c4_amended_witness :
    isInsideGrid (6 : Int) 3 = true ∧ isWall (6 : Int) 3 = false :=
  c4_amended Reachable.load { x := 6, y := 3, dir := 1 } (by decide)

/-- C9: `tryMove` (for any direction) and `advanceEnemies` are total on
every `GameState` (reachable ones in particular): the checked engine,
which returns `none` whenever a `tiles[y][x]` access would be out of
bounds, is always defined and agrees with the engine — every tile access
is guarded by a prior inside-grid check. -/
theorem c9_totality (s : GameState) (dx dy : Int) :
    tryMovePlayerChecked s dx dy = some (tryMovePlayer s dx dy) ∧
    moveEnemiesChecked s = some (moveEnemies s) :=
  ⟨tryMovePlayerChecked_eq s dx dy, moveEnemiesChecked_eq s⟩

/-- C10: the enemy check on the target cell precedes the door check in
`tryMovePlayer`: in any state in which an enemy stands on the door's
cell and the player moves onto it, the outcome is Death — regardless of
whether the door is open — and the state is unchanged. -/
theorem c10_enemy_on_door (s : GameState) (dx dy : Int)
    (hins : isInsideGrid (s.player.x + dx) (s.player.y + dy) = true)
    (hen : isEnemyAt s.enemies (s.player.x + dx) (s.player.y + dy) = true)
    (_hdx : s.player.x + dx = s.door.x) (_hdy : s.player.y + dy = s.door.y) :
    tryMovePlayer s dx dy = (s, [Outcome.death]) := by
  simp [tryMovePlayer, hins, hen]

/-- Witness for C10: an open door at (13, 1) with an enemy on it and the
player at (12, 1) moving right — outcome Death, not Win. -/
theorem c10_witness :
    tryMovePlayer enemyOnDoorState 1 0 = (enemyOnDoorState, [Outcome.death]) :=
  c10_enemy_on_door enemyOnDoorState 1 0 (by decide) (by decide) (by decide) (by decide)

/-- C5: throughout a level's lifetime, `door.open` is true exactly when
`keysCollected` equals `totalKeys`; `keysCollected` always counts the
collected keys; across any single call `door.open` never goes true to
false, and a false-to-true transition happens exactly at a call where
`keysCollected` reaches `totalKeys` from strictly below (hence at most
once). -/
theorem c5_door_monotone {s : GameState} (hr : Reachable s) (a : Act) :
    (s.door.isOpen = true ↔ s.keysCollected = s.totalKeys) ∧
    s.keysCollected = countCollected s.keys ∧
    (s.door.isOpen = true → (applyAct s a).1.door.isOpen = true) ∧
    (s.door.isOpen = false → (applyAct s a).1.door.isOpen = true →
      (applyAct s a).1.keysCollected = s.totalKeys ∧ s.keysCollected < s.totalKeys) := by
  have hInv := inv_reachable hr
  have hInv2 : EngineInv (applyAct s a).1 := by
    cases a with
    | move d => exact inv_tryMove hInv d.dx d.dy
    | tick => exact inv_moveEnemies hInv
  refine ⟨by rw [hInv.total_eq]; exact hInv.door_iff, hInv.count_eq, ?_, ?_⟩
  · intro hop
    cases a with
    | move d => exact tryMove_door_monotone s d.dx d.dy hop
    | tick => exact hop
  · intro hcl hop2
    have h1 : (applyAct s a).1.keysCollected = 3 := hInv2.door_iff.1 hop2
    have h2 : s.keysCollected ≠ 3 := by
      intro hc
      have h3 := hInv.door_iff.2 hc
      rw [hcl] at h3
      exact absurd h3 (by decide)
    have hlen : s.keys.length = 3 := by
      have := congrArg List.length hInv.keys_pos
      simpa using this
    have hle : countCollected s.keys ≤ 3 := by
      have h4 := List.length_filter_le (fun k => k.collected) s.keys
      rw [hlen] at h4
      exact h4
    rw [hInv.total_eq]
    refine ⟨h1, ?_⟩
    have h5 := hInv.count_eq
    omega

/-- Witness for C5 at the loaded level with one tick. -/
theorem c5_witness :
    (resetLevel.door.isOpen = true ↔ resetLevel.keysCollected = resetLevel.totalKeys) ∧
    resetLevel.keysCollected = countCollected resetLevel.keys ∧
    (resetLevel.door.isOpen = true → (applyAct resetLevel Act.tick).1.door.isOpen = true) ∧
    (resetLevel.door.isOpen = false → (applyAct resetLevel Act.tick).1.door.isOpen = true →
      (applyAct resetLevel Act.tick).1.keysCollected = resetLevel.totalKeys ∧
      resetLevel.keysCollected < resetLevel.totalKeys) :=
  c5_door_monotone Reachable.load Act.tick

/-- C6: in any reachable state, a `tryMove` whose target cell holds an
enemy emits Death and leaves the state unchanged; a `tryMove` whose
target cell is the door's cell emits Win when the door is open and
DoorLocked otherwise, and leaves the state unchanged in both cases. -/
theorem c6_enemy_and_door {s : GameState} (hr : Reachable s) (d : Dir) :
    (isEnemyAt s.enemies (s.player.x + d.dx) (s.player.y + d.dy) = true →
      tryMovePlayer s d.dx d.dy = (s, [Outcome.death])) ∧
    (s.player.x + d.dx = s.door.x → s.player.y + d.dy = s.door.y →
      tryMovePlayer s d.dx d.dy =
        (s, [if s.door.isOpen then Outcome.win else Outcome.doorLocked])) := by
  have hInv := inv_reachable hr
  constructor
  · intro hen
    obtain ⟨e, hemem, hex, hey⟩ := isEnemyAt_iff.1 hen
    have hins : isInsideGrid (s.player.x + d.dx) (s.player.y + d.dy) = true := by
      have h2 := (hInv.enemies_floor e hemem).1
      rwa [hex, hey] at h2
    simp [tryMovePlayer, hins, hen]
  · intro hdx2 hdy2
    have hins : isInsideGrid (s.player.x + d.dx) (s.player.y + d.dy) = true := by
      rw [hdx2, hdy2, hInv.door_x, hInv.door_y]
      decide
    have henf : isEnemyAt s.enemies (s.player.x + d.dx) (s.player.y + d.dy) = false := by
      rw [Bool.eq_false_iff]
      intro hcon
      obtain ⟨e, hemem, hex, hey⟩ := isEnemyAt_iff.1 hcon
      have h3 := (hInv.enemies_floor e hemem).2.2
      have h4 := hInv.door_y
      omega
    have hdoorb :
        (s.player.x + d.dx == s.door.x && s.player.y + d.dy == s.door.y) = true := by
      simp [hdx2, hdy2]
    simp only [tryMovePlayer, hins, henf, hdoorb, Bool.not_true, Bool.false_eq_true,
      if_false, if_true]
    cases s.door.isOpen <;> simp

/-- Witness for C6: at the reachable state with the player at (5, 3) and
the enemy at (6, 3), moving right emits Death and changes nothing. -/
theorem c6_witness :
    tryMovePlayer enemyApproachTrace 1 0 = (enemyApproachTrace, [Outcome.death]) :=
  (c6_enemy_and_door (reachable_runActs Reachable.load enemyApproachActs) Dir.right).1
    (by decide)

/-- C7: in any reachable state, a `tryMove` whose target cell is outside
the grid or a wall leaves the whole `GameState` unchanged and emits
nothing (the spec's None outcome). -/
theorem c7_noop {s : GameState} (hr : Reachable s) (d : Dir)
    (h : isInsideGrid (s.player.x + d.dx) (s.player.y + d.dy) = false ∨
         isWall (s.player.x + d.dx) (s.player.y + d.dy) = true) :
    tryMovePlayer s d.dx d.dy = (s, []) := by
  have hInv := inv_reachable hr
  rcases h with h | h
  · simp [tryMovePlayer, h]
  · have hins := isWall_inside h
    have henf : isEnemyAt s.enemies (s.player.x + d.dx) (s.player.y + d.dy) = false := by
      rw [Bool.eq_false_iff]
      intro hcon
      obtain ⟨e, hemem, hex, hey⟩ := isEnemyAt_iff.1 hcon
      have h2 := (hInv.enemies_floor e hemem).2.1
      rw [hex, hey, h] at h2
      exact absurd h2 (by decide)
    have hdoorb :
        (s.player.x + d.dx == s.door.x && s.player.y + d.dy == s.door.y) = false := by
      rw [Bool.eq_false_iff]
      intro hcon
      simp only [Bool.and_eq_true, beq_iff_eq] at hcon
      have h2 : isWall s.door.x s.door.y = true := by
        rw [← hcon.1, ← hcon.2]
        exact h
      rw [hInv.door_x, hInv.door_y] at h2
      exact absurd h2 (by decide)
    have hblkf : (findBlockAt s.blocks (s.player.x + d.dx) (s.player.y + d.dy)).isSome
        = false := by
      cases hfb : findBlockAt s.blocks (s.player.x + d.dx) (s.player.y + d.dy) with
      | none => rfl
      | some b =>
        obtain ⟨hbmem, hbx, hby⟩ := findBlockAt_eq_some hfb
        have h2 := (hInv.blocks_floor b hbmem).2
        rw [hbx, hby, h] at h2
        exact absurd h2 (by decide)
    simp only [tryMovePlayer, hins, henf, hdoorb, hblkf, h, Bool.not_true,
      Bool.false_eq_true, if_false]
    exact collectKey_of_none hInv.player_no_key

/-- Witness for C7: at the loaded level, moving up into the wall at
(1, 0) is a silent no-op. -/
theorem c7_witness : tryMovePlayer resetLevel 0 (-1) = (resetLevel, []) :=
  c7_noop Reachable.load Dir.up (Or.inr (by decide))

/-- Reduction of `tryMovePlayer` to its push branch when the target cell
holds a block and neither an enemy nor the door sits on the target. -/
theorem tryMove_push_eq {s : GameState} {dx dy : Int}
    (hins : isInsideGrid (s.player.x + dx) (s.player.y + dy) = true)
    (hen : isEnemyAt s.enemies (s.player.x + dx) (s.player.y + dy) = false)
    (hdoorb : (s.player.x + dx == s.door.x && s.player.y + dy == s.door.y) = false)
    (hblk : (findBlockAt s.blocks (s.player.x + dx) (s.player.y + dy)).isSome = true) :
    tryMovePlayer s dx dy =
      (if !isInsideGrid (s.player.x + dx + dx) (s.player.y + dy + dy) then (s, [])
       else if isBlockingTile s.blocks (s.player.x + dx + dx) (s.player.y + dy + dy) then
         (s, [])
       else collectKey
         { s with blocks := pushBlock s.blocks (s.player.x + dx) (s.player.y + dy)
                    (s.player.x + dx + dx) (s.player.y + dy + dy)
                , player := { x := s.player.x + dx, y := s.player.y + dy } }) := by
  simp only [tryMovePlayer, hins, hen, hdoorb, hblk, Bool.not_true, Bool.false_eq_true,
    if_false, if_true]

/-- C3 (counterexample): the claim — for every `tryMove` with a unit
direction whose target holds a block, the push succeeds exactly when the
behind cell is inside the grid, not a wall, and block-free, and
otherwise nothing moves — is false: the enemy check on the target
precedes the block branch, and a block can (reachably) sit on the
enemy's cell; pushing it again emits Death and moves nothing although
the behind cell is free. -/
theorem c3_counterexample :
    ¬ (∀ s : GameState, Reachable s → ∀ dx dy : Int,
        ((dx, dy) = (1, 0) ∨ (dx, dy) = (-1, 0) ∨ (dx, dy) = (0, 1) ∨ (dx, dy) = (0, -1)) →
        (findBlockAt s.blocks (s.player.x + dx) (s.player.y + dy)).isSome = true →
        ((isInsideGrid (s.player.x + dx + dx) (s.player.y + dy + dy) = true ∧
            isWall (s.player.x + dx + dx) (s.player.y + dy + dy) = false ∧
            findBlockAt s.blocks (s.player.x + dx + dx) (s.player.y + dy + dy) = none) →
          (tryMovePlayer s dx dy).1.player =
            { x := s.player.x + dx, y := s.player.y + dy }) ∧
        (¬(isInsideGrid (s.player.x + dx + dx) (s.player.y + dy + dy) = true ∧
            isWall (s.player.x + dx + dx) (s.player.y + dy + dy) = false ∧
            findBlockAt s.blocks (s.player.x + dx + dx) (s.player.y + dy + dy) = none) →
          (tryMovePlayer s dx dy).1.player = s.player ∧
            (tryMovePlayer s dx dy).1.blocks = s.blocks)) := by
  intro h
  have hr : Reachable pushOntoEnemyTrace :=
    reachable_runActs Reachable.load pushOntoEnemyActs
  have hcon := (h pushOntoEnemyTrace hr (-1) 0 (by decide) (by decide)).1 (by decide)
  revert hcon
  decide

/-- C3 (amended): for every `tryMove` with a unit direction whose target
cell holds a block, provided additionally that no enemy occupies the
target and the target is not the door's cell (the enemy and door checks
precede the block branch, and both overlaps are reachable): if the
behind cell is inside the grid, not a wall, and not occupied by another
block, then in one call the block moves to the behind cell and the
player to the target cell; otherwise the call returns the state
unchanged with no outcome.  Door or enemy occupancy of the behind cell
does not prevent the push, and no partial state arises. -/
theorem c3_amended {s : GameState} (hr : Reachable s) (d : Dir)
    (hblk : (findBlockAt s.blocks (s.player.x + d.dx) (s.player.y + d.dy)).isSome = true)
    (hen : isEnemyAt s.enemies (s.player.x + d.dx) (s.player.y + d.dy) = false)
    (hdoor : ¬(s.player.x + d.dx = s.door.x ∧ s.player.y + d.dy = s.door.y)) :
    ((isInsideGrid (s.player.x + d.dx + d.dx) (s.player.y + d.dy + d.dy) = true ∧
        isWall (s.player.x + d.dx + d.dx) (s.player.y + d.dy + d.dy) = false ∧
        findBlockAt s.blocks (s.player.x + d.dx + d.dx) (s.player.y + d.dy + d.dy) = none) →
      (tryMovePlayer s d.dx d.dy).1.player =
          { x := s.player.x + d.dx, y := s.player.y + d.dy } ∧
        (tryMovePlayer s d.dx d.dy).1.blocks =
          replaceFirst s.blocks { x := s.player.x + d.dx, y := s.player.y + d.dy }
            { x := s.player.x + d.dx + d.dx, y := s.player.y + d.dy + d.dy }) ∧
    (¬(isInsideGrid (s.player.x + d.dx + d.dx) (s.player.y + d.dy + d.dy) = true ∧
        isWall (s.player.x + d.dx + d.dx) (s.player.y + d.dy + d.dy) = false ∧
        findBlockAt s.blocks (s.player.x + d.dx + d.dx) (s.player.y + d.dy + d.dy) = none) →
      tryMovePlayer s d.dx d.dy = (s, [])) := by
  have hInv := inv_reachable hr
  obtain ⟨b, hb⟩ := Option.isSome_iff_exists.1 hblk
  obtain ⟨hbmem, hbx, hby⟩ := findBlockAt_eq_some hb
  have hins : isInsideGrid (s.player.x + d.dx) (s.player.y + d.dy) = true := by
    have h2 := (hInv.blocks_floor b hbmem).1
    rwa [hbx, hby] at h2
  have hdoorb :
      (s.player.x + d.dx == s.door.x && s.player.y + d.dy == s.door.y) = false := by
    rw [Bool.eq_false_iff]
    intro hcon
    exact hdoor (by simpa [Bool.and_eq_true, beq_iff_eq] using hcon)
  rw [tryMove_push_eq hins hen hdoorb hblk]
  constructor
  · rintro ⟨hfi, hfw, hfb⟩
    have hbt : isBlockingTile s.blocks (s.player.x + d.dx + d.dx) (s.player.y + d.dy + d.dy)
        = false := isBlockingTile_eq_false.2 ⟨hfi, hfw, hfb⟩
    rw [hfi, hbt]
    simp only [Bool.not_true, Bool.false_eq_true, if_false]
    refine ⟨(collectKey_frame _).1, ?_⟩
    rw [(collectKey_frame _).2.1]
    exact pushBlock_map_pos hblk
  · intro hnot
    cases hbin : isInsideGrid (s.player.x + d.dx + d.dx) (s.player.y + d.dy + d.dy)
    · rfl
    · have hbt : isBlockingTile s.blocks (s.player.x + d.dx + d.dx) (s.player.y + d.dy + d.dy)
          = true := by
        cases hbt2 : isBlockingTile s.blocks (s.player.x + d.dx + d.dx)
            (s.player.y + d.dy + d.dy)
        · exact absurd (isBlockingTile_eq_false.1 hbt2) hnot
        · rfl
      rw [hbt]
      simp

/-- Witness for C3 (amended): at the reachable state with the player at
(4, 1) and a block at (5, 1), moving right pushes the block to (6, 1)
and the player to (5, 1). -/
theorem c3_amended_witness :
    (tryMovePlayer threeRightTrace 1 0).1.player =
        { x := threeRightTrace.player.x + 1, y := threeRightTrace.player.y + 0 } ∧
      (tryMovePlayer threeRightTrace 1 0).1.blocks =
        replaceFirst threeRightTrace.blocks
          { x := threeRightTrace.player.x + 1, y := threeRightTrace.player.y + 0 }
          { x := threeRightTrace.player.x + 1 + 1, y := threeRightTrace.player.y + 0 + 0 } :=
  (c3_amended (reachable_runActs Reachable.load threeRightActs) Dir.right (by decide)
    (by decide) (by decide)).1 (by decide)

/-- C8: in any reachable state, when a `tryMove` relocates the player
(free move or successful push) onto a cell holding an uncollected key,
that key becomes collected (none is left on the cell), `keysCollected`
and the collected-key count rise by exactly one, and the call emits
KeyCollected; when this makes `keysCollected` equal `totalKeys` the door
opens and AllKeysCollected is additionally emitted, and otherwise the
door is untouched and KeyCollected is the only outcome. -/
theorem c8_key_pickup {s : GameState} (hr : Reachable s) (d : Dir)
    (hmoved : (tryMovePlayer s d.dx d.dy).1.player ≠ s.player) (k : KeyEnt)
    (hkey : findKeyAt s.keys (tryMovePlayer s d.dx d.dy).1.player.x
        (tryMovePlayer s d.dx d.dy).1.player.y = some k) :
    (tryMovePlayer s d.dx d.dy).1.keysCollected = s.keysCollected + 1 ∧
    countCollected (tryMovePlayer s d.dx d.dy).1.keys = countCollected s.keys + 1 ∧
    findKeyAt (tryMovePlayer s d.dx d.dy).1.keys
      (tryMovePlayer s d.dx d.dy).1.player.x (tryMovePlayer s d.dx d.dy).1.player.y
      = none ∧
    ((tryMovePlayer s d.dx d.dy).1.keysCollected = s.totalKeys →
      (tryMovePlayer s d.dx d.dy).1.door.isOpen = true ∧
      (tryMovePlayer s d.dx d.dy).2 = [Outcome.keyCollected, Outcome.allKeysCollected]) ∧
    ((tryMovePlayer s d.dx d.dy).1.keysCollected ≠ s.totalKeys →
      (tryMovePlayer s d.dx d.dy).1.door.isOpen = s.door.isOpen ∧
      (tryMovePlayer s d.dx d.dy).2 = [Outcome.keyCollected]) := by
  have hInv := inv_reachable hr
  obtain ⟨s1, heq, hkeys, hkc, ht, hdoor, _⟩ := tryMove_moved hmoved
  have hfr := collectKey_frame s1
  have hkey1 : findKeyAt s1.keys s1.player.x s1.player.y = some k := by
    rw [heq] at hkey
    rw [hkeys]
    rwa [hfr.1] at hkey
  have hspec := collectKey_spec hkey1
  have hcount := collectKeyList_count hkey1
  have hnd : (s1.keys.map (fun k2 => (k2.x, k2.y))).Nodup := by
    rw [hkeys, hInv.keys_pos]
    decide
  have hafter := findKeyAt_collectKeyList (x := s1.player.x) (y := s1.player.y) hnd
  rw [heq]
  refine ⟨?_, ?_, ?_, ?_, ?_⟩
  · rw [hspec.1, hkc]
  · rw [hspec.2.1, hcount, hkeys]
  · rw [hspec.2.1, hfr.1]
    exact hafter
  · intro h3
    have h4 : s1.keysCollected + 1 = s1.totalKeys := by
      rw [hspec.1] at h3
      rw [ht]
      exact h3
    exact hspec.2.2.1 h4
  · intro h3
    have h4 : s1.keysCollected + 1 ≠ s1.totalKeys := by
      rw [hspec.1] at h3
      rw [ht]
      exact h3
    refine ⟨?_, (hspec.2.2.2 h4).2⟩
    rw [(hspec.2.2.2 h4).1, hdoor]

/-- Witness for C8: at the reachable state with the player at (3, 6),
moving right onto the key at (4, 6) collects it. -/
theorem c8_witness :
    (tryMovePlayer keyApproachTrace 1 0).1.keysCollected =
        keyApproachTrace.keysCollected + 1 ∧
    countCollected (tryMovePlayer keyApproachTrace 1 0).1.keys =
        countCollected keyApproachTrace.keys + 1 ∧
    findKeyAt (tryMovePlayer keyApproachTrace 1 0).1.keys
      (tryMovePlayer keyApproachTrace 1 0).1.player.x
      (tryMovePlayer keyApproachTrace 1 0).1.player.y = none ∧
    ((tryMovePlayer keyApproachTrace 1 0).1.keysCollected = keyApproachTrace.totalKeys →
      (tryMovePlayer keyApproachTrace 1 0).1.door.isOpen = true ∧
      (tryMovePlayer keyApproachTrace 1 0).2 =
        [Outcome.keyCollected, Outcome.allKeysCollected]) ∧
    ((tryMovePlayer keyApproachTrace 1 0).1.keysCollected ≠ keyApproachTrace.totalKeys →
      (tryMovePlayer keyApproachTrace 1 0).1.door.isOpen = keyApproachTrace.door.isOpen ∧
      (tryMovePlayer keyApproachTrace 1 0).2 = [Outcome.keyCollected]) :=
  c8_key_pickup (reachable_runActs Reachable.load keyApproachActs) Dir.right (by decide)
    { x := 4, y := 6, collected := false } (by decide)
